import Mathlib

/-!
Verification development for the DragGAN interactive renderer
(`viz/renderer_pickable.py`).

The Python code is shallowly embedded: pixel coordinates are integers,
feature vectors are lists of rationals (``torch`` float tensors modelled
exactly over ℚ), and the mutable attributes of the `Renderer` object are
collected in a `Session` record.  The synthesis network, which the code
invokes as a black box, is a record of functions (`Network`); the Adam
update, which torch performs through autograd, is an abstract function
argument `opt`, and the gradient-related side effects of a drag step are
reported as an explicit list of `OptAction`s.
-/

namespace DragGAN

/-- A feature (or latent) vector: one rational entry per channel. -/
abbrev Vec := List ℚ

/-- A pixel coordinate, `(row, column)`, as used by the drag loop. -/
abbrev Pt := ℤ × ℤ

/-- Floor of a rational, computed as Euclidean division of the numerator
by the (positive) denominator so that kernel reduction works. -/
def ratFloor (q : ℚ) : ℤ := q.num / (q.den : ℤ)

/-- Python's built-in `round`: round half to even (banker's rounding). -/
def pyRound (q : ℚ) : ℤ :=
  let f := ratFloor q
  let frac := q - (f : ℚ)
  if frac < 1 / 2 then f
  else if 1 / 2 < frac then f + 1
  else if f % 2 = 0 then f else f + 1

/-- Squared Euclidean distance between two channel vectors; the code
compares `torch.linalg.norm` values, and comparing squared distances is
equivalent because `Real.sqrt` is monotone on nonnegative inputs. -/
def distSqQ (u v : Vec) : ℚ :=
  (List.zipWith (fun a b => (a - b) ^ 2) u v).sum

/-- Index of the first minimal element of a list, the semantics of
`torch.min(x.view(1,-1), -1)` on the flattened search patch. -/
def idxOfMin : List ℚ → ℕ
  | [] => 0
  | [_] => 0
  | a :: b :: t =>
      if a ≤ (b :: t).getD (idxOfMin (b :: t)) 0 then 0
      else idxOfMin (b :: t) + 1

lemma idxOfMin_lt_length : ∀ (l : List ℚ), l ≠ [] → idxOfMin l < l.length := by
  intro l
  induction l with
  | nil => intro hc; exact absurd rfl hc
  | cons a t ih =>
      intro _
      cases t with
      | nil => simp [idxOfMin]
      | cons b t2 =>
          have h2 := ih (by simp)
          by_cases hc : a ≤ (b :: t2).getD (idxOfMin (b :: t2)) 0
          · simp only [idxOfMin]
            rw [if_pos hc]
            simp
          · simp only [idxOfMin]
            rw [if_neg hc]
            simp only [List.length_cons] at h2 ⊢
            omega

lemma idxOfMin_le : ∀ (l : List ℚ) (i : ℕ), i < l.length →
    l.getD (idxOfMin l) 0 ≤ l.getD i 0 := by
  intro l
  induction l with
  | nil => intro i hi; simp at hi
  | cons a t ih =>
      intro i hi
      cases t with
      | nil =>
          have hi0 : i = 0 := by simp at hi; omega
          subst hi0
          simp [idxOfMin]
      | cons b t2 =>
          by_cases hc : a ≤ (b :: t2).getD (idxOfMin (b :: t2)) 0
          · simp only [idxOfMin]
            rw [if_pos hc]
            cases i with
            | zero => simp
            | succ j =>
                simp only [List.getD_cons_zero, List.getD_cons_succ]
                refine le_trans hc (ih j ?_)
                simp only [List.length_cons] at hi ⊢
                omega
          · simp only [idxOfMin]
            rw [if_neg hc]
            cases i with
            | zero =>
                simp only [List.getD_cons_zero, List.getD_cons_succ]
                exact le_of_lt (lt_of_not_le hc)
            | succ j =>
                simp only [List.getD_cons_succ]
                refine ih j ?_
                simp only [List.length_cons] at hi ⊢
                omega

lemma idxOfMin_first : ∀ (l : List ℚ) (i : ℕ), i < idxOfMin l →
    l.getD (idxOfMin l) 0 < l.getD i 0 := by
  intro l
  induction l with
  | nil => intro i hi; simp [idxOfMin] at hi
  | cons a t ih =>
      intro i hi
      cases t with
      | nil => simp [idxOfMin] at hi
      | cons b t2 =>
          by_cases hc : a ≤ (b :: t2).getD (idxOfMin (b :: t2)) 0
          · simp only [idxOfMin] at hi
            rw [if_pos hc] at hi
            omega
          · simp only [idxOfMin] at hi
            rw [if_neg hc] at hi
            simp only [idxOfMin]
            rw [if_neg hc]
            cases i with
            | zero =>
                simp only [List.getD_cons_zero, List.getD_cons_succ]
                exact lt_of_not_le hc
            | succ j =>
                simp only [List.getD_cons_succ]
                exact ih j (by omega)

/-- Row-major enumeration of the clipped search patch
`feat_resize[:, :, up:down, left:right]`: flat index `k` maps to pixel
`(up + k // width, left + k % width)`, exactly the unflattening formula
used by the tracker. -/
def windowCoords (up down left right : ℤ) : List Pt :=
  (List.range ((down - up).toNat * (right - left).toNat)).map fun k =>
    (up + ((k / (right - left).toNat : ℕ) : ℤ),
     left + ((k % (right - left).toNat : ℕ) : ℤ))

lemma windowCoords_length (up down left right : ℤ) :
    (windowCoords up down left right).length =
      (down - up).toNat * (right - left).toNat := by
  simp [windowCoords]

lemma windowCoords_getD (up down left right : ℤ) (k : ℕ)
    (hk : k < (down - up).toNat * (right - left).toNat) :
    (windowCoords up down left right).getD k (0, 0) =
      (up + ((k / (right - left).toNat : ℕ) : ℤ),
       left + ((k % (right - left).toNat : ℕ) : ℤ)) := by
  have hlen : k < (windowCoords up down left right).length := by
    simpa [windowCoords_length] using hk
  rw [List.getD_eq_getElem _ _ hlen]
  simp [windowCoords]

lemma mem_windowCoords (up down left right : ℤ) (q : Pt) :
    q ∈ windowCoords up down left right ↔
      up ≤ q.1 ∧ q.1 < down ∧ left ≤ q.2 ∧ q.2 < right := by
  constructor
  · intro hq
    simp only [windowCoords, List.mem_map, List.mem_range] at hq
    obtain ⟨k, hk, rfl⟩ := hq
    dsimp only
    have hW0 : 0 < (right - left).toNat := by
      rcases Nat.eq_zero_or_pos (right - left).toNat with h0 | h0
      · rw [h0, Nat.mul_zero] at hk
        omega
      · exact h0
    have hdiv : k / (right - left).toNat < (down - up).toNat := by
      rw [Nat.div_lt_iff_lt_mul hW0]
      exact hk
    have hmod : k % (right - left).toNat < (right - left).toNat :=
      Nat.mod_lt _ hW0
    generalize k / (right - left).toNat = qd at hdiv ⊢
    generalize k % (right - left).toNat = rm at hmod ⊢
    omega
  · rintro ⟨h1, h2, h3, h4⟩
    simp only [windowCoords, List.mem_map, List.mem_range]
    set H := (down - up).toNat with hH
    set W := (right - left).toNat with hW
    have hW0 : 0 < W := by omega
    refine ⟨(q.2 - left).toNat + W * (q.1 - up).toNat, ?_, ?_⟩
    · have hiH : (q.1 - up).toNat < H := by omega
      have hjW : (q.2 - left).toNat < W := by omega
      have s1 : W * ((q.1 - up).toNat + 1) = W * (q.1 - up).toNat + W := by ring
      have s2 : W * ((q.1 - up).toNat + 1) ≤ W * H :=
        Nat.mul_le_mul_left W (by omega)
      have s3 : W * H = H * W := Nat.mul_comm W H
      omega
    · have hjW : (q.2 - left).toNat < W := by omega
      have hdiv : ((q.2 - left).toNat + W * (q.1 - up).toNat) / W
          = (q.1 - up).toNat := by
        rw [Nat.add_mul_div_left _ _ hW0, Nat.div_eq_of_lt hjW, Nat.zero_add]
      have hmod : ((q.2 - left).toNat + W * (q.1 - up).toNat) % W
          = (q.2 - left).toNat := by
        rw [Nat.add_mul_mod_self_left, Nat.mod_eq_of_lt hjW]
      rw [hdiv, hmod]
      have e1 : up + ((q.1 - up).toNat : ℤ) = q.1 := by omega
      have e2 : left + ((q.2 - left).toNat : ℤ) = q.2 := by omega
      rw [e1, e2]

/-- The search radius: `r = round(r2 / 512 * h)` in the tracking loop. -/
def trackRadius (r2 : ℚ) (hres : ℕ) : ℤ :=
  pyRound (r2 / 512 * (hres : ℚ))

/-- The clipped square search window of half-width `r` around previous
point `p`, in row-major order: rows `max(p₁-r,0) .. min(p₁+r+1,h)`,
columns `max(p₂-r,0) .. min(p₂+r+1,w)`, as sliced by the tracker. -/
def trackWindow (h w r : ℤ) (p : Pt) : List Pt :=
  windowCoords (max (p.1 - r) 0) (min (p.1 + r + 1) h)
    (max (p.2 - r) 0) (min (p.2 + r + 1) w)

/-- Specification-side description of the search region: within `r` of the
previous location in both coordinates (square window of half-width `r`
centred at `p`) and inside image bounds (clipping). -/
def inWindow (h w r : ℤ) (p q : Pt) : Prop :=
  |q.1 - p.1| ≤ r ∧ 0 ≤ q.1 ∧ q.1 < h ∧ |q.2 - p.2| ≤ r ∧ 0 ≤ q.2 ∧ q.2 < w

instance (h w r : ℤ) (p q : Pt) : Decidable (inWindow h w r p q) := by
  unfold inWindow
  exact inferInstance

/-- Row-major (lexicographic row-then-column) order on pixel locations. -/
def rowMajorLt (a b : Pt) : Prop :=
  a.1 < b.1 ∨ (a.1 = b.1 ∧ a.2 < b.2)

/-- One tracking update: take the argmin of the per-location feature
distance to the reference over the flattened window, then unflatten with
`idx // width + up, idx % width + left` exactly as the code does. -/
def trackPoint (fm : Pt → Vec) (ref : Vec) (h w r : ℤ) (p : Pt) : Pt :=
  let up := max (p.1 - r) 0
  let left := max (p.2 - r) 0
  let right := min (p.2 + r + 1) w
  let width := right - left
  let idx := idxOfMin ((trackWindow h w r p).map fun q => distSqQ (fm q) ref)
  ((idx : ℤ) / width + up, (idx : ℤ) % width + left)

/-- The tracking loop over all points: point `j` is relocated using
`feat_refs[j]`. -/
def trackAll (fm : Pt → Vec) (h w r : ℤ) (pts : List Pt) (refs : List Vec) :
    List Pt :=
  List.zipWith (fun p ref => trackPoint fm ref h w r p) pts refs

lemma getD_map_dist (l : List Pt) (dfn : Pt → ℚ) (i : ℕ) (hi : i < l.length) :
    (l.map dfn).getD i 0 = dfn (l.getD i (0, 0)) := by
  induction l generalizing i with
  | nil => simp at hi
  | cons a t ih =>
      cases i with
      | zero => simp
      | succ j =>
          simp only [List.map_cons, List.getD_cons_succ]
          exact ih j (by simp at hi; omega)

lemma mem_iff_getD (l : List Pt) (q : Pt) :
    q ∈ l ↔ ∃ i, i < l.length ∧ l.getD i (0, 0) = q := by
  constructor
  · intro hq
    induction l with
    | nil => simp at hq
    | cons a t ih =>
        rcases List.mem_cons.mp hq with h1 | h2
        · exact ⟨0, by simp, by simp [h1]⟩
        · obtain ⟨i, hi, hgi⟩ := ih h2
          exact ⟨i + 1, by simp; omega, by simpa using hgi⟩
  · rintro ⟨i, hi, rfl⟩
    induction l generalizing i with
    | nil => simp at hi
    | cons a t ih =>
        cases i with
        | zero => simp
        | succ j =>
            simp only [List.getD_cons_succ]
            exact List.mem_cons_of_mem a (ih j (by simp at hi; omega))

lemma mem_trackWindow (h w r : ℤ) (p q : Pt) :
    q ∈ trackWindow h w r p ↔ inWindow h w r p q := by
  rw [trackWindow, mem_windowCoords, inWindow]
  rw [max_le_iff, lt_min_iff, max_le_iff, lt_min_iff, abs_le, abs_le]
  constructor
  · rintro ⟨⟨a1, a2⟩, ⟨a3, a4⟩, ⟨a5, a6⟩, a7, a8⟩
    refine ⟨⟨by omega, by omega⟩, a2, a4, ⟨by omega, by omega⟩, a6, a8⟩
  · rintro ⟨⟨a1, a2⟩, a3, a4, ⟨a5, a6⟩, a7, a8⟩
    exact ⟨⟨by omega, a3⟩, ⟨by omega, a4⟩, ⟨by omega, a7⟩, by omega, a8⟩

lemma trackWindow_length_pos (h w r : ℤ) (p : Pt) (hr : 0 ≤ r)
    (hp : inWindow h w r p p) : 0 < (trackWindow h w r p).length := by
  obtain ⟨hp1, hp2, hp3, hp4, hp5, hp6⟩ := hp
  rw [trackWindow, windowCoords_length]
  have h1 : 0 < (min (p.1 + r + 1) h - max (p.1 - r) 0).toNat := by omega
  have h2 : 0 < (min (p.2 + r + 1) w - max (p.2 - r) 0).toNat := by omega
  exact Nat.mul_pos h1 h2

lemma trackPoint_eq_getD (fm : Pt → Vec) (ref : Vec) (h w r : ℤ) (p : Pt)
    (hr : 0 ≤ r) (hp : inWindow h w r p p) :
    trackPoint fm ref h w r p =
      (trackWindow h w r p).getD
        (idxOfMin ((trackWindow h w r p).map fun q => distSqQ (fm q) ref))
        (0, 0) := by
  obtain ⟨hp1, hp2, hp3, hp4, hp5, hp6⟩ := hp
  have hLpos : 0 < (trackWindow h w r p).length :=
    trackWindow_length_pos h w r p hr ⟨hp1, hp2, hp3, hp4, hp5, hp6⟩
  set dists := (trackWindow h w r p).map fun q => distSqQ (fm q) ref
    with hdists
  have hdlen : dists.length = (trackWindow h w r p).length := by
    simp [hdists]
  have hidx : idxOfMin dists < (trackWindow h w r p).length := by
    rw [← hdlen]
    exact idxOfMin_lt_length dists (by
      intro hnil
      rw [hnil] at hdlen
      simp at hdlen
      omega)
  have hk : idxOfMin dists <
      (min (p.1 + r + 1) h - max (p.1 - r) 0).toNat *
        (min (p.2 + r + 1) w - max (p.2 - r) 0).toNat := by
    rw [trackWindow, windowCoords_length] at hidx
    exact hidx
  rw [trackWindow, windowCoords_getD _ _ _ _ _ hk]
  rw [trackPoint]
  have hwpos : (0 : ℤ) < min (p.2 + r + 1) w - max (p.2 - r) 0 := by omega
  have hcast : ((min (p.2 + r + 1) w - max (p.2 - r) 0).toNat : ℤ)
      = min (p.2 + r + 1) w - max (p.2 - r) 0 := Int.toNat_of_nonneg (by omega)
  have hdiveq : ((idxOfMin dists : ℤ) / (min (p.2 + r + 1) w - max (p.2 - r) 0))
      = ((idxOfMin dists / (min (p.2 + r + 1) w - max (p.2 - r) 0).toNat : ℕ) : ℤ) := by
    rw [Int.ofNat_ediv, hcast]
  have hmodeq : ((idxOfMin dists : ℤ) % (min (p.2 + r + 1) w - max (p.2 - r) 0))
      = ((idxOfMin dists % (min (p.2 + r + 1) w - max (p.2 - r) 0).toNat : ℕ) : ℤ) := by
    rw [Int.ofNat_emod, hcast]
  rw [hdiveq, hmodeq]
  ext <;> dsimp only <;> ring

lemma trackPoint_mem (fm : Pt → Vec) (ref : Vec) (h w r : ℤ) (p : Pt)
    (hr : 0 ≤ r) (hp : inWindow h w r p p) :
    trackPoint fm ref h w r p ∈ trackWindow h w r p := by
  rw [trackPoint_eq_getD fm ref h w r p hr hp]
  rw [mem_iff_getD]
  refine ⟨_, ?_, rfl⟩
  have hLpos : 0 < (trackWindow h w r p).length :=
    trackWindow_length_pos h w r p hr hp
  have hdlen : ((trackWindow h w r p).map fun q => distSqQ (fm q) ref).length
      = (trackWindow h w r p).length := by simp
  rw [← hdlen]
  exact idxOfMin_lt_length _ (by
    intro hnil
    rw [hnil] at hdlen
    simp at hdlen
    omega)

lemma trackPoint_inWindow (fm : Pt → Vec) (ref : Vec) (h w r : ℤ) (p : Pt)
    (hr : 0 ≤ r) (hp : inWindow h w r p p) :
    inWindow h w r p (trackPoint fm ref h w r p) :=
  (mem_trackWindow h w r p _).mp (trackPoint_mem fm ref h w r p hr hp)

lemma trackPoint_min (fm : Pt → Vec) (ref : Vec) (h w r : ℤ) (p q : Pt)
    (hr : 0 ≤ r) (hp : inWindow h w r p p) (hq : inWindow h w r p q) :
    distSqQ (fm (trackPoint fm ref h w r p)) ref ≤ distSqQ (fm q) ref := by
  have hqmem : q ∈ trackWindow h w r p := (mem_trackWindow h w r p q).mpr hq
  obtain ⟨i, hi, hgi⟩ := (mem_iff_getD _ q).mp hqmem
  set dists := (trackWindow h w r p).map fun q => distSqQ (fm q) ref
    with hdists
  have hdlen : dists.length = (trackWindow h w r p).length := by
    simp [hdists]
  have hidx : idxOfMin dists < (trackWindow h w r p).length := by
    rw [← hdlen]
    exact idxOfMin_lt_length dists (by
      intro hnil
      rw [hnil] at hdlen
      simp at hdlen
      omega)
  have e1 : dists.getD (idxOfMin dists) 0
      = distSqQ (fm (trackPoint fm ref h w r p)) ref := by
    rw [hdists, getD_map_dist _ _ _ hidx,
      ← trackPoint_eq_getD fm ref h w r p hr hp]
  have e2 : dists.getD i 0 = distSqQ (fm q) ref := by
    rw [hdists, getD_map_dist _ _ _ hi, hgi]
  rw [← e1, ← e2]
  exact idxOfMin_le dists i (by rw [hdlen]; exact hi)

lemma windowCoords_lt_of_index (up down left right : ℤ) (i k : ℕ)
    (hik : i < k) (hk : k < (down - up).toNat * (right - left).toNat) :
    rowMajorLt ((windowCoords up down left right).getD i (0, 0))
      ((windowCoords up down left right).getD k (0, 0)) := by
  have hi : i < (down - up).toNat * (right - left).toNat := by omega
  have hW0 : 0 < (right - left).toNat := by
    rcases Nat.eq_zero_or_pos (right - left).toNat with h0 | h0
    · rw [h0, Nat.mul_zero] at hk
      omega
    · exact h0
  rw [windowCoords_getD _ _ _ _ _ hi, windowCoords_getD _ _ _ _ _ hk]
  have hdivle : i / (right - left).toNat ≤ k / (right - left).toNat :=
    Nat.div_le_div_right (le_of_lt hik)
  have hreci := Nat.div_add_mod i (right - left).toNat
  have hreck := Nat.div_add_mod k (right - left).toNat
  have hmodi : i % (right - left).toNat < (right - left).toNat :=
    Nat.mod_lt _ hW0
  have hmodk : k % (right - left).toNat < (right - left).toNat :=
    Nat.mod_lt _ hW0
  rcases lt_or_eq_of_le hdivle with hlt | heq
  · left
    dsimp only
    omega
  · right
    constructor
    · dsimp only
      omega
    · dsimp only
      have hmlt : i % (right - left).toNat < k % (right - left).toNat := by
        rw [heq] at hreci
        omega
      omega

lemma trackPoint_first (fm : Pt → Vec) (ref : Vec) (h w r : ℤ) (p q : Pt)
    (hr : 0 ≤ r) (hp : inWindow h w r p p) (hq : inWindow h w r p q)
    (heq : distSqQ (fm q) ref = distSqQ (fm (trackPoint fm ref h w r p)) ref)
    (hne : q ≠ trackPoint fm ref h w r p) :
    rowMajorLt (trackPoint fm ref h w r p) q := by
  have hqmem : q ∈ trackWindow h w r p := (mem_trackWindow h w r p q).mpr hq
  obtain ⟨i, hi, hgi⟩ := (mem_iff_getD _ q).mp hqmem
  set dists := (trackWindow h w r p).map fun q => distSqQ (fm q) ref
    with hdists
  have hdlen : dists.length = (trackWindow h w r p).length := by
    simp [hdists]
  have hidx : idxOfMin dists < (trackWindow h w r p).length := by
    rw [← hdlen]
    exact idxOfMin_lt_length dists (by
      intro hnil
      rw [hnil] at hdlen
      simp at hdlen
      omega)
  have e1 : dists.getD (idxOfMin dists) 0
      = distSqQ (fm (trackPoint fm ref h w r p)) ref := by
    rw [hdists, getD_map_dist _ _ _ hidx,
      ← trackPoint_eq_getD fm ref h w r p hr hp]
  have e2 : dists.getD i 0 = distSqQ (fm q) ref := by
    rw [hdists, getD_map_dist _ _ _ hi, hgi]
  rcases lt_trichotomy i (idxOfMin dists) with hlt | hieq | hgt
  · exfalso
    have := idxOfMin_first dists i hlt
    rw [e1, e2] at this
    rw [heq] at this
    exact lt_irrefl _ this
  · exfalso
    apply hne
    rw [← hgi, hieq, trackPoint_eq_getD fm ref h w r p hr hp]
  · rw [trackPoint_eq_getD fm ref h w r p hr hp, ← hgi]
    have hkb : i < (min (p.1 + r + 1) h - max (p.1 - r) 0).toNat *
        (min (p.2 + r + 1) w - max (p.2 - r) 0).toNat := by
      rw [trackWindow, windowCoords_length] at hi
      exact hi
    exact windowCoords_lt_of_index _ _ _ _ _ _ hgt hkb

/-- The convergence threshold `max(2 / 512 * h, 2)` of the motion loop. -/
def stopThresh (hres : ℕ) : ℚ :=
  max (2 / 512 * (hres : ℚ)) 2

/-- Squared length of `direction = [t.col - p.col, t.row - p.row]`; the
code compares `torch.linalg.norm(direction)` against the threshold, which
is equivalent to comparing squares since both sides are nonnegative. -/
def pointDistSq (p t : Pt) : ℚ :=
  ((t.2 - p.2 : ℤ) : ℚ) ^ 2 + ((t.1 - p.1 : ℤ) : ℚ) ^ 2

/-- The `res.stop` fold: starts at `True` and is set to `False` for every
point whose distance to its target exceeds the threshold. -/
def computeStop (hres : ℕ) : List (Pt × Pt) → Bool → Bool
  | [], acc => acc
  | pr :: rest, acc =>
      computeStop hres rest
        (if stopThresh hres ^ 2 < pointDistSq pr.1 pr.2 then false else acc)

lemma computeStop_eq_all (hres : ℕ) (l : List (Pt × Pt)) (acc : Bool) :
    computeStop hres l acc =
      (acc && l.all fun pr =>
        ! decide (stopThresh hres ^ 2 < pointDistSq pr.1 pr.2)) := by
  induction l generalizing acc with
  | nil => simp [computeStop]
  | cons pr rest ih =>
      rw [computeStop, ih]
      by_cases hc : stopThresh hres ^ 2 < pointDistSq pr.1 pr.2
      · simp [hc]
      · simp [hc]

lemma computeStop_true_iff (hres : ℕ) (l : List (Pt × Pt)) :
    computeStop hres l true = true ↔
      ∀ pr ∈ l, pointDistSq pr.1 pr.2 ≤ stopThresh hres ^ 2 := by
  rw [computeStop_eq_all]
  simp [List.all_eq_true, not_lt]

/-- The latent code being optimized: shape `(1, D)` in single-vector mode
(`w_plus = False`) or `(1, L, D)` in per-layer mode (`w_plus = True`). -/
inductive Latent where
  | single (v : Vec)
  | perLayer (ws : List Vec)
deriving DecidableEq

/-- `ws.unsqueeze(1).repeat(1, 6, 1)` for a 2-dimensional latent; a
per-layer latent is left as is. -/
def broadcast6 : Latent → List Vec
  | .single v => List.replicate 6 v
  | .perLayer ws => ws

/-- The latent handed to the synthesis network:
`torch.cat([ws[:, :6, :], w0[:, 6:, :]], dim=1)`. -/
def effectiveLatent (w : Latent) (w0 : List Vec) : List Vec :=
  (broadcast6 w).take 6 ++ w0.drop 6

/-- A 3×3 input-transform matrix (`G.synthesis.input.transform`). -/
structure Mat3 where
  m00 : ℚ
  m01 : ℚ
  m02 : ℚ
  m10 : ℚ
  m11 : ℚ
  m12 : ℚ
  m20 : ℚ
  m21 : ℚ
  m22 : ℚ
deriving DecidableEq

/-- 3×3 identity, the `np.eye(3)` default. -/
def eye3 : Mat3 := ⟨1, 0, 0, 0, 1, 0, 0, 0, 1⟩

/-- Determinant of a 3×3 matrix; `np.linalg.inv` raises `LinAlgError`
exactly on singular input. -/
def det3 (m : Mat3) : ℚ :=
  m.m00 * (m.m11 * m.m22 - m.m12 * m.m21)
    - m.m01 * (m.m10 * m.m22 - m.m12 * m.m20)
    + m.m02 * (m.m10 * m.m21 - m.m11 * m.m20)

/-- Inverse by adjugate over determinant (value irrelevant when
`det3 m = 0`, which the code turns into an error instead). -/
def inv3 (m : Mat3) : Mat3 :=
  let d := det3 m
  ⟨(m.m11 * m.m22 - m.m12 * m.m21) / d,
   -(m.m01 * m.m22 - m.m02 * m.m21) / d,
   (m.m01 * m.m12 - m.m02 * m.m11) / d,
   -(m.m10 * m.m22 - m.m12 * m.m20) / d,
   (m.m00 * m.m22 - m.m02 * m.m20) / d,
   -(m.m00 * m.m12 - m.m02 * m.m10) / d,
   (m.m10 * m.m21 - m.m11 * m.m20) / d,
   -(m.m00 * m.m21 - m.m01 * m.m20) / d,
   (m.m00 * m.m11 - m.m01 * m.m10) / d⟩

/-- Error kinds surfaced through `CapturedException` (section 7 taxonomy). -/
inductive ErrKind where
  | modelLoad
  | numerical
  | runtime
deriving DecidableEq

/-- The loaded synthesis network, a black-box collaborator: metadata plus
the mapping and synthesis callables.  `synthFeat` is the already-resized
feature map `F.interpolate(feat[feature_idx], [h, w])` as a function from
pixel to channel vector; `synthImage` is an opaque token for the rendered
image tensor. -/
structure Network where
  img_resolution : ℕ
  num_ws : ℕ
  has_input_transform : Bool
  mapping : ℤ → List Vec
  synthImage : List Vec → ℤ
  synthFeat : List Vec → Pt → Vec

/-- The mutable attributes of the `Renderer` object that the drag loop
reads and writes.  Attributes set by `hasattr`-guarded code are `Option`s
(`none` = attribute absent).  The optimizer is its learning rate plus an
opaque moment-state token. -/
structure Session where
  G : Option Network
  pkl : Option String
  w0_seed : Option ℤ
  w_plus : Option Bool
  w : Latent
  w0 : List Vec
  feat_refs : Option (List Vec)
  feat0_resize : Option (Pt → Vec)
  points0_pt : Option (List Pt)
  points : Option (List Pt)
  optimLr : ℚ
  optimState : ℕ
  transform : Mat3

/-- Per-call arguments consumed by `_render_drag_impl`. -/
structure DragArgs where
  points : List Pt
  targets : List Pt
  r1 : ℚ
  r2 : ℚ
  is_drag : Bool
  reset : Bool

/-- Gradient-related optimizer side effects of one drag step. -/
inductive OptAction where
  | zeroGrad
  | backward
  | step
deriving DecidableEq

/-- The fields of the `res` dict that the renderer populates. -/
structure DragResult where
  points : Option (List Pt)
  stop : Option Bool
  image : Option ℤ
  error : Option ErrKind
  init_net : Option Bool

/-- A fresh, empty `res` dict. -/
def emptyResult : DragResult := ⟨none, none, none, none, none⟩

/-- Whether lines 351–356 reset the feature cache: the caller-supplied
`reset` flag, forced to `True` when the number of supplied points differs
from the tracked `self.points` (when that attribute exists). -/
def resetCond (s : Session) (pts : List Pt) (reset : Bool) : Bool :=
  match s.points with
  | some ps => if pts.length ≠ ps.length then true else reset
  | none => reset

/-- Lines 351–357 of the renderer: force a reset when the number of
supplied points differs from the tracked `self.points`, clear
`self.feat_refs` and `self.points0_pt` on reset, then record the supplied
points as `self.points`. -/
def resetStage (s : Session) (pts : List Pt) (reset : Bool) : Session :=
  let s1 :=
    if resetCond s pts reset then
      { s with feat_refs := none, points0_pt := none }
    else s
  { s1 with points := some pts }

/-- Lines 374–380: when `self.feat_refs is None`, snapshot the current
resized feature map as `self.feat0_resize`, sample one reference vector
per point from it, and record the initial points. -/
def populateRefs (fm : Pt → Vec) (pts : List Pt) (s : Session) : Session :=
  match s.feat_refs with
  | some _ => s
  | none =>
      { s with
          feat0_resize := some fm,
          feat_refs := some (pts.map fun p => fm p),
          points0_pt := some pts }

/-- The tracked point list produced by one drag step (tracking runs on the
current feature map against the cached — or just-populated — references). -/
def dragTrackedPoints (net : Network) (s : Session) (a : DragArgs) :
    List Pt :=
  let fm := net.synthFeat (effectiveLatent s.w s.w0)
  let s3 := populateRefs fm a.points (resetStage s a.points a.reset)
  trackAll fm (net.img_resolution : ℤ) (net.img_resolution : ℤ)
    (trackRadius a.r2 net.img_resolution) a.points (s3.feat_refs.getD [])

/-- `_render_drag_impl`: reset handling, synthesis, and — when dragging —
reference population, point tracking, the stop fold, and the gated
optimizer step.  The motion-supervision/mask/regularization loss only
feeds the abstract optimizer update `opt`, so its value is not modelled;
the zero-grad/backward/step side effects are reported as `OptAction`s. -/
def renderDragImpl (net : Network) (opt : ℚ → Latent → ℕ → Latent × ℕ)
    (s : Session) (a : DragArgs) : Session × DragResult × List OptAction :=
  let ws := effectiveLatent s.w s.w0
  let img := net.synthImage ws
  let s2 := resetStage s a.points a.reset
  if a.is_drag then
    let fm := net.synthFeat ws
    let s3 := populateRefs fm a.points s2
    let newPts := dragTrackedPoints net s a
    let stop := computeStop net.img_resolution (newPts.zip a.targets) true
    if stop then
      (s3,
       { emptyResult with
           points := some newPts, stop := some stop, image := some img },
       [])
    else
      let wo := opt s3.optimLr s3.w s3.optimState
      ({ s3 with w := wo.1, optimState := wo.2 },
       { emptyResult with
           points := some newPts, stop := some stop, image := some img },
       [OptAction.zeroGrad, OptAction.backward, OptAction.step])
  else
    (s2, { emptyResult with image := some img }, [])

/-- Per-call arguments consumed by `render`/`init_network`. -/
structure RenderArgs where
  pkl : String
  w0_seed : ℤ
  w_plus : Bool
  reset_w : Bool
  input_transform : Option Mat3
  lr : ℚ
  drag : DragArgs

/-- The `init_net` decision at the top of `render`: reinitialize when
there is no network yet, or any of the recorded `pkl`/`w0_seed`/`w_plus`
attributes differs from the incoming argument, or `reset_w` is set. -/
def decideInitNet (s : Session) (a : RenderArgs) : Bool :=
  let i1 := s.G.isNone
  let i2 :=
    match s.pkl with
    | some p => decide (p ≠ a.pkl)
    | none => false
  let i3 :=
    match s.w0_seed with
    | some z => decide (z ≠ a.w0_seed)
    | none => false
  let i4 :=
    match s.w_plus with
    | some b => decide (b ≠ a.w_plus)
    | none => false
  i1 || i2 || i3 || i4 || a.reset_w

/-- The input-transform block of `init_network`: start from `np.eye(3)`,
try to invert the supplied matrix, and on a singular matrix record the
`LinAlgError` (as a numerical-kind error) while keeping the identity. -/
def setInputTransform : Option Mat3 → Mat3 × Option ErrKind
  | none => (eye3, none)
  | some m =>
      if det3 m = 0 then (eye3, some ErrKind.numerical)
      else (inv3 m, none)

/-- `init_network`: records `self.pkl` first, then loads the network
(`loader` stands for `get_network`; a load failure raises), sets the
input transform, runs the mapping network for the seed, derives the fresh
`w0`/`w`/optimizer, and clears the feature cache.  On a raised load
failure only `self.pkl` has been touched. -/
def initNetwork (loader : String → Except ErrKind Network)
    (s : Session) (a : RenderArgs) :
    Session × Except ErrKind (Option ErrKind) :=
  let s1 := { s with pkl := some a.pkl }
  match loader a.pkl with
  | .error e => (s1, .error e)
  | .ok net =>
      let tm := setInputTransform a.input_transform
      let w0 := net.mapping a.w0_seed
      ({ s1 with
          G := some net,
          transform := if net.has_input_transform then tm.1 else s1.transform,
          w0_seed := some a.w0_seed,
          w0 := w0,
          w_plus := some a.w_plus,
          w := if a.w_plus then Latent.perLayer w0 else Latent.single w0.headI,
          optimLr := a.lr,
          optimState := 0,
          feat_refs := none,
          points0_pt := none },
       .ok (if net.has_input_transform then tm.2 else none))

/-- `render`: decide `init_net`, run `init_network` when required (a load
failure is caught and turned into `res.error`, skipping the drag step),
then run `_render_drag_impl`.  A transform error recorded during
initialization stays in `res.error`. -/
def render (loader : String → Except ErrKind Network)
    (opt : ℚ → Latent → ℕ → Latent × ℕ)
    (s : Session) (a : RenderArgs) :
    Session × DragResult × List OptAction :=
  let initFlag := decideInitNet s a
  if initFlag then
    match initNetwork loader s a with
    | (s1, .error e) =>
        (s1, { emptyResult with init_net := some true, error := some e }, [])
    | (s1, .ok terr) =>
        match s1.G with
        | some net =>
            let out := renderDragImpl net opt s1 a.drag
            (out.1,
             { out.2.1 with
                 init_net := some true,
                 error :=
                   match terr with
                   | some e => some e
                   | none => out.2.1.error },
             out.2.2)
        | none =>
            (s1,
             { emptyResult with
                 init_net := some true, error := some ErrKind.runtime },
             [])
  else
    match s.G with
    | some net =>
        let out := renderDragImpl net opt s a.drag
        (out.1, { out.2.1 with init_net := some false }, out.2.2)
    | none =>
        (s,
         { emptyResult with
             init_net := some false, error := some ErrKind.runtime },
         [])

lemma resetStage_w (s : Session) (pts : List Pt) (reset : Bool) :
    (resetStage s pts reset).w = s.w := by
  rw [resetStage]
  split <;> rfl

lemma resetStage_optimLr (s : Session) (pts : List Pt) (reset : Bool) :
    (resetStage s pts reset).optimLr = s.optimLr := by
  rw [resetStage]
  split <;> rfl

lemma resetStage_optimState (s : Session) (pts : List Pt) (reset : Bool) :
    (resetStage s pts reset).optimState = s.optimState := by
  rw [resetStage]
  split <;> rfl

lemma resetStage_feat0 (s : Session) (pts : List Pt) (reset : Bool) :
    (resetStage s pts reset).feat0_resize = s.feat0_resize := by
  rw [resetStage]
  split <;> rfl

lemma resetStage_transform (s : Session) (pts : List Pt) (reset : Bool) :
    (resetStage s pts reset).transform = s.transform := by
  rw [resetStage]
  split <;> rfl

lemma populateRefs_w (fm : Pt → Vec) (pts : List Pt) (s : Session) :
    (populateRefs fm pts s).w = s.w := by
  rw [populateRefs]
  cases s.feat_refs <;> rfl

lemma populateRefs_optimLr (fm : Pt → Vec) (pts : List Pt) (s : Session) :
    (populateRefs fm pts s).optimLr = s.optimLr := by
  rw [populateRefs]
  cases s.feat_refs <;> rfl

lemma populateRefs_optimState (fm : Pt → Vec) (pts : List Pt) (s : Session) :
    (populateRefs fm pts s).optimState = s.optimState := by
  rw [populateRefs]
  cases s.feat_refs <;> rfl

lemma populateRefs_transform (fm : Pt → Vec) (pts : List Pt) (s : Session) :
    (populateRefs fm pts s).transform = s.transform := by
  rw [populateRefs]
  cases s.feat_refs <;> rfl

lemma renderDragImpl_points (net : Network)
    (opt : ℚ → Latent → ℕ → Latent × ℕ) (s : Session) (a : DragArgs)
    (hdrag : a.is_drag = true) :
    (renderDragImpl net opt s a).2.1.points
      = some (dragTrackedPoints net s a) := by
  rw [renderDragImpl]
  rw [hdrag]
  simp only [if_true]
  split <;> rfl

lemma renderDragImpl_stop (net : Network)
    (opt : ℚ → Latent → ℕ → Latent × ℕ) (s : Session) (a : DragArgs)
    (hdrag : a.is_drag = true) :
    (renderDragImpl net opt s a).2.1.stop
      = some (computeStop net.img_resolution
          ((dragTrackedPoints net s a).zip a.targets) true) := by
  rw [renderDragImpl]
  rw [hdrag]
  simp only [if_true]
  split <;> rfl

lemma renderDragImpl_image (net : Network)
    (opt : ℚ → Latent → ℕ → Latent × ℕ) (s : Session) (a : DragArgs) :
    (renderDragImpl net opt s a).2.1.image
      = some (net.synthImage (effectiveLatent s.w s.w0)) := by
  rw [renderDragImpl]
  split
  · dsimp only
    split <;> rfl
  · rfl

lemma renderDragImpl_transform (net : Network)
    (opt : ℚ → Latent → ℕ → Latent × ℕ) (s : Session) (a : DragArgs) :
    (renderDragImpl net opt s a).1.transform = s.transform := by
  rw [renderDragImpl]
  split
  · dsimp only
    split
    · rw [populateRefs_transform, resetStage_transform]
    · show (populateRefs _ _ _).transform = s.transform
      rw [populateRefs_transform, resetStage_transform]
  · exact resetStage_transform s a.points a.reset

lemma resetCond_eq_true (s : Session) (pts : List Pt) (reset : Bool)
    (hc : reset = true ∨ ∃ ps, s.points = some ps ∧ pts.length ≠ ps.length) :
    resetCond s pts reset = true := by
  rcases hc with hr | ⟨ps, hsp, hne⟩
  · subst hr
    rw [resetCond]
    cases s.points with
    | none => rfl
    | some ps => by_cases hl : pts.length ≠ ps.length <;> simp [hl]
  · rw [resetCond, hsp]
    simp [hne]

lemma resetCond_eq_false (s : Session) (pts : List Pt) (reset : Bool)
    (hr : reset = false)
    (hl : ∀ ps, s.points = some ps → pts.length = ps.length) :
    resetCond s pts reset = false := by
  subst hr
  rw [resetCond]
  cases hsp : s.points with
  | none => rfl
  | some ps => simp [hl ps hsp]

lemma trackAll_length (fm : Pt → Vec) (h w r : ℤ) (pts : List Pt)
    (refs : List Vec) (hlen : pts.length = refs.length) :
    (trackAll fm h w r pts refs).length = pts.length := by
  rw [trackAll, List.length_zipWith, hlen, Nat.min_self]

lemma trackAll_getD (fm : Pt → Vec) (h w r : ℤ) (pts : List Pt)
    (refs : List Vec) (hlen : pts.length = refs.length) (j : ℕ)
    (hj : j < pts.length) :
    (trackAll fm h w r pts refs).getD j (0, 0) =
      trackPoint fm (refs.getD j []) h w r (pts.getD j (0, 0)) := by
  induction pts generalizing refs j with
  | nil => simp at hj
  | cons p pt ih =>
      cases refs with
      | nil => simp at hlen
      | cons rf rft =>
          cases j with
          | zero => simp [trackAll]
          | succ k =>
              simp only [trackAll, List.zipWith_cons_cons, List.getD_cons_succ]
              refine ih rft ?_ k ?_
              · simp only [List.length_cons] at hlen
                omega
              · simp only [List.length_cons] at hj
                omega

/-! ### Concrete instances used by counterexamples and witnesses -/

/-- A stand-in identifier for an already loaded model. -/
def pklA : String := "stylegan2-model-a.pkl"

/-- An identifier whose weights cannot be loaded. -/
def pklBad : String := "unknown-model.pkl"

/-- A small 8×8-resolution network whose feature map is constant. -/
def cNet : Network :=
  { img_resolution := 8, num_ws := 8, has_input_transform := false,
    mapping := fun _ => List.replicate 8 [], synthImage := fun _ => 0,
    synthFeat := fun _ _ => [0] }

/-- An abstract optimizer update that visibly bumps the moment state. -/
def cOpt : ℚ → Latent → ℕ → Latent × ℕ :=
  fun _ wl o => (wl, o + 1)

/-- A ready session holding `cNet`. -/
def cSes : Session :=
  { G := some cNet, pkl := some pklA, w0_seed := some 0, w_plus := some true,
    w := Latent.perLayer (List.replicate 8 []),
    w0 := List.replicate 8 [],
    feat_refs := none, feat0_resize := none, points0_pt := none,
    points := none, optimLr := 1 / 1000, optimState := 0, transform := eye3 }

/-- A drag call whose (single) point lands exactly at threshold distance
from its target: with resolution 8 the threshold is `max(2/512*8, 2) = 2`
and the point-target distance is exactly 2. -/
def cArgsEq : DragArgs :=
  { points := [(0, 0)], targets := [(0, 2)], r1 := 3, r2 := 12,
    is_drag := true, reset := false }

/-- A drag call with the target strictly inside the threshold. -/
def cArgsNear : DragArgs :=
  { points := [(0, 0)], targets := [(0, 1)], r1 := 3, r2 := 12,
    is_drag := true, reset := false }

/-- A drag call whose point coincides with its target. -/
def cArgsConv : DragArgs :=
  { points := [(0, 0)], targets := [(0, 0)], r1 := 3, r2 := 12,
    is_drag := true, reset := false }

/-- A non-drag call that nevertheless requests a reset. -/
def cArgsNoDragReset : DragArgs :=
  { points := [(0, 0)], targets := [(0, 0)], r1 := 3, r2 := 12,
    is_drag := false, reset := true }

/-- A plain non-drag call. -/
def cDragNone : DragArgs :=
  { points := [], targets := [], r1 := 3, r2 := 12,
    is_drag := false, reset := false }

/-- `cSes` with a populated feature cache. -/
def cSesRefs : Session := { cSes with feat_refs := some [[1]] }

/-- A constant feature-map snapshot. -/
def fmConst : Pt → Vec := fun _ => [0]

/-- `cSes` with a fully populated feature cache including the
`feat0_resize` snapshot. -/
def cSesSnap : Session :=
  { cSes with
      feat_refs := some [[1]], feat0_resize := some fmConst,
      points0_pt := some [(0, 0)] }

/-- A loader that resolves `pklA` and fails on everything else,
standing in for `get_network`. -/
def cLoader : String → Except ErrKind Network :=
  fun p => if p = pklA then Except.ok cNet else Except.error ErrKind.modelLoad

/-- A render request against the unresolvable identifier. -/
def cArgsBad : RenderArgs :=
  { pkl := pklBad, w0_seed := 0, w_plus := true, reset_w := false,
    input_transform := none, lr := 1 / 1000, drag := cDragNone }

/-! ### Claim theorems

Concrete evaluations below go through `decide`; the rational arithmetic
operations are made semireducible locally so that kernel reduction can
evaluate them. -/

section ConcreteEvaluation

attribute [local semireducible] Rat.add Rat.mul Rat.inv Rat.sub

/-- C1 counterexample: the stop flag is implemented with a strict
comparison `norm > max(2/512*h, 2)`, so at a point whose distance to its
target is exactly the threshold (resolution 8, distance 2, threshold 2)
the returned flag is `true` even though the distance is not strictly
below the threshold, refuting the claimed "below" (strict) reading. -/
theorem stop_flag_true_at_exact_threshold :
    (renderDragImpl cNet cOpt cSes cArgsEq).2.1.stop = some true ∧
    ¬ (∀ pr ∈ (((renderDragImpl cNet cOpt cSes cArgsEq).2.1.points).getD
          []).zip cArgsEq.targets,
        pointDistSq pr.1 pr.2 < stopThresh cNet.img_resolution ^ 2) := by
  constructor
  · decide
  · decide

/-- C1 (amended): on a drag step with equal-length point and target
lists, the returned stop flag is `true` iff every returned point's
distance to its target is at most (not strictly below)
`max(2/512 * resolution, 2)`; distances are compared as squares. -/
theorem stop_iff_all_at_most_threshold (net : Network)
    (opt : ℚ → Latent → ℕ → Latent × ℕ) (s : Session) (a : DragArgs)
    (hdrag : a.is_drag = true)
    (_hlen : a.points.length = a.targets.length) :
    (renderDragImpl net opt s a).2.1.stop = some true ↔
      ∀ pr ∈ (((renderDragImpl net opt s a).2.1.points).getD []).zip
          a.targets,
        pointDistSq pr.1 pr.2 ≤ stopThresh net.img_resolution ^ 2 := by
  rw [renderDragImpl_stop net opt s a hdrag,
    renderDragImpl_points net opt s a hdrag]
  rw [Option.getD_some]
  constructor
  · intro hsome
    have hb : computeStop net.img_resolution
        ((dragTrackedPoints net s a).zip a.targets) true = true :=
      Option.some_injective _ hsome
    exact (computeStop_true_iff _ _).mp hb
  · intro hall
    rw [(computeStop_true_iff _ _).mpr hall]

/-- C1 witness: the amended theorem applied to a concrete in-threshold
drag call. -/
theorem stop_iff_all_at_most_threshold_witness :
    cArgsNear.is_drag = true ∧
    cArgsNear.points.length = cArgsNear.targets.length ∧
    ((renderDragImpl cNet cOpt cSes cArgsNear).2.1.stop = some true ↔
      ∀ pr ∈ (((renderDragImpl cNet cOpt cSes cArgsNear).2.1.points).getD
          []).zip cArgsNear.targets,
        pointDistSq pr.1 pr.2 ≤ stopThresh cNet.img_resolution ^ 2) :=
  ⟨rfl, rfl, stop_iff_all_at_most_threshold cNet cOpt cSes cArgsNear rfl rfl⟩

/-- C2: with `r = round(r2/512 * resolution)`, the tracker relocates a
point to a location of the clipped square window of half-width `r`
centred at its previous location; that location minimizes the (squared)
Euclidean feature distance to the reference vector over the window, and
any distinct location tying the minimum comes strictly later in
row-major scan order. -/
theorem trackPoint_first_argmin_in_window (fm : Pt → Vec) (ref : Vec)
    (hres : ℕ) (r2 : ℚ) (p : Pt)
    (hr : 0 ≤ trackRadius r2 hres)
    (hp : inWindow hres hres (trackRadius r2 hres) p p) :
    inWindow hres hres (trackRadius r2 hres) p
      (trackPoint fm ref hres hres (trackRadius r2 hres) p) ∧
    (∀ q : Pt, inWindow hres hres (trackRadius r2 hres) p q →
      distSqQ (fm (trackPoint fm ref hres hres (trackRadius r2 hres) p)) ref
        ≤ distSqQ (fm q) ref) ∧
    (∀ q : Pt, inWindow hres hres (trackRadius r2 hres) p q →
      distSqQ (fm q) ref =
        distSqQ (fm (trackPoint fm ref hres hres (trackRadius r2 hres) p))
          ref →
      q ≠ trackPoint fm ref hres hres (trackRadius r2 hres) p →
      rowMajorLt (trackPoint fm ref hres hres (trackRadius r2 hres) p) q) :=
  ⟨trackPoint_inWindow fm ref hres hres (trackRadius r2 hres) p hr hp,
   fun q hq => trackPoint_min fm ref hres hres (trackRadius r2 hres) p q
     hr hp hq,
   fun q hq heq hne => trackPoint_first fm ref hres hres
     (trackRadius r2 hres) p q hr hp hq heq hne⟩

/-- A small non-constant feature map used by tracking witnesses. -/
def wFm : Pt → Vec := fun q => [(q.1 : ℚ), (q.2 : ℚ)]

/-- C2 witness: the theorem applied at resolution 64 and `r2 = 12`
(radius `round(1.5) = 2`, exercising banker's rounding), point `(1, 1)`,
reference vector `[1, 1]`. -/
theorem trackPoint_first_argmin_in_window_witness :
    0 ≤ trackRadius 12 64 ∧
    inWindow 64 64 (trackRadius 12 64) (1, 1) (1, 1) ∧
    (inWindow 64 64 (trackRadius 12 64) (1, 1)
      (trackPoint wFm [1, 1] 64 64 (trackRadius 12 64) (1, 1)) ∧
    (∀ q : Pt, inWindow 64 64 (trackRadius 12 64) (1, 1) q →
      distSqQ (wFm (trackPoint wFm [1, 1] 64 64 (trackRadius 12 64) (1, 1)))
          [1, 1]
        ≤ distSqQ (wFm q) [1, 1]) ∧
    (∀ q : Pt, inWindow 64 64 (trackRadius 12 64) (1, 1) q →
      distSqQ (wFm q) [1, 1] =
        distSqQ (wFm (trackPoint wFm [1, 1] 64 64 (trackRadius 12 64)
          (1, 1))) [1, 1] →
      q ≠ trackPoint wFm [1, 1] 64 64 (trackRadius 12 64) (1, 1) →
      rowMajorLt (trackPoint wFm [1, 1] 64 64 (trackRadius 12 64) (1, 1))
        q)) :=
  ⟨by decide, by decide,
   trackPoint_first_argmin_in_window wFm [1, 1] 64 12 (1, 1)
     (by decide) (by decide)⟩

/-- C3 counterexample: a call with `is_drag = False` but `reset = True`
clears the populated `feat_refs` cache, so the claim that such a call
never mutates the FeatureReference cache is false. -/
theorem non_drag_reset_clears_feat_refs :
    (renderDragImpl cNet cOpt cSesRefs cArgsNoDragReset).1.feat_refs = none ∧
    cSesRefs.feat_refs = some [[1]] :=
  ⟨by decide, by decide⟩

/-- C3 (amended): a render step with `is_drag = false` never mutates the
latent code or the optimizer and performs no gradient operations; the
FeatureReference cache is unchanged too, provided no reset is requested
and the supplied point count matches the tracked one (otherwise it is
cleared by the reset stage, which runs regardless of `is_drag`). -/
theorem non_drag_preserves_latent_and_optimizer (net : Network)
    (opt : ℚ → Latent → ℕ → Latent × ℕ) (s : Session) (a : DragArgs)
    (hdrag : a.is_drag = false) :
    (renderDragImpl net opt s a).1.w = s.w ∧
    (renderDragImpl net opt s a).1.optimLr = s.optimLr ∧
    (renderDragImpl net opt s a).1.optimState = s.optimState ∧
    (renderDragImpl net opt s a).2.2 = [] ∧
    (a.reset = false →
      (∀ ps, s.points = some ps → a.points.length = ps.length) →
      (renderDragImpl net opt s a).1.feat_refs = s.feat_refs) := by
  rw [renderDragImpl, hdrag]
  rw [if_neg Bool.false_ne_true]
  refine ⟨resetStage_w s a.points a.reset,
    resetStage_optimLr s a.points a.reset,
    resetStage_optimState s a.points a.reset, rfl, ?_⟩
  intro hr hl
  simp only [resetStage, resetCond_eq_false s a.points a.reset hr hl,
    Bool.false_eq_true, if_false]

/-- C3 witness: the amended theorem applied to the concrete
reset-while-not-dragging call. -/
theorem non_drag_preserves_latent_and_optimizer_witness :
    cArgsNoDragReset.is_drag = false ∧
    ((renderDragImpl cNet cOpt cSesRefs cArgsNoDragReset).1.w = cSesRefs.w ∧
     (renderDragImpl cNet cOpt cSesRefs cArgsNoDragReset).1.optimLr
       = cSesRefs.optimLr ∧
     (renderDragImpl cNet cOpt cSesRefs cArgsNoDragReset).1.optimState
       = cSesRefs.optimState ∧
     (renderDragImpl cNet cOpt cSesRefs cArgsNoDragReset).2.2 = [] ∧
     (cArgsNoDragReset.reset = false →
       (∀ ps, cSesRefs.points = some ps →
         cArgsNoDragReset.points.length = ps.length) →
       (renderDragImpl cNet cOpt cSesRefs cArgsNoDragReset).1.feat_refs
         = cSesRefs.feat_refs)) :=
  ⟨rfl,
   non_drag_preserves_latent_and_optimizer cNet cOpt cSesRefs
     cArgsNoDragReset rfl⟩

/-- C4 counterexample: a reset clears `feat_refs` and `points0_pt`, but
the `feat0_resize` attribute — the initial FeatureMap snapshot — keeps
its value, so the claim that every reset clears the snapshot is false.
(The stale snapshot is only overwritten on the next drag step because
repopulation is keyed on the cleared `feat_refs`.) -/
theorem reset_keeps_feat0_snapshot :
    (resetStage cSesSnap [] true).feat_refs = none ∧
    (resetStage cSesSnap [] true).points0_pt = none ∧
    (resetStage cSesSnap [] true).feat0_resize.isSome = true :=
  ⟨by decide, by decide, by decide⟩

/-- C4 (amended): every reset — explicit or triggered by a point-count
change — clears the FeatureReference list and the initial-points record
while leaving the LatentCode value, the optimizer's learning rate and
moment state, and the stored FeatureMap snapshot attribute unchanged;
the snapshot is recomputed before its next use because repopulation
triggers whenever the FeatureReference list is cleared. -/
theorem resetStage_clears_refs_preserves_latent_lr (s : Session)
    (pts : List Pt) (reset : Bool)
    (hc : reset = true ∨ ∃ ps, s.points = some ps ∧ pts.length ≠ ps.length) :
    (resetStage s pts reset).feat_refs = none ∧
    (resetStage s pts reset).points0_pt = none ∧
    (resetStage s pts reset).w = s.w ∧
    (resetStage s pts reset).optimLr = s.optimLr ∧
    (resetStage s pts reset).optimState = s.optimState ∧
    (resetStage s pts reset).feat0_resize = s.feat0_resize := by
  simp [resetStage, resetCond_eq_true s pts reset hc]

/-- C4 witness: the amended theorem applied to a concrete explicit
reset on a fully populated cache. -/
theorem resetStage_clears_refs_preserves_latent_lr_witness :
    (resetStage cSesSnap [] true).feat_refs = none ∧
    (resetStage cSesSnap [] true).points0_pt = none ∧
    (resetStage cSesSnap [] true).w = cSesSnap.w ∧
    (resetStage cSesSnap [] true).optimLr = cSesSnap.optimLr ∧
    (resetStage cSesSnap [] true).optimState = cSesSnap.optimState ∧
    (resetStage cSesSnap [] true).feat0_resize = cSesSnap.feat0_resize :=
  resetStage_clears_refs_preserves_latent_lr cSesSnap [] true (Or.inl rfl)

/-- C7: on a drag step on which every returned (tracked) point is within
the convergence threshold of its target, no optimizer update happens:
the returned action list is empty (no gradient zeroing, no backward
pass, no `step()`), and the latent code and the optimizer's learning
rate and moment state are unchanged. -/
theorem converged_step_no_optimizer_update (net : Network)
    (opt : ℚ → Latent → ℕ → Latent × ℕ) (s : Session) (a : DragArgs)
    (hdrag : a.is_drag = true)
    (hconv : ∀ pr ∈ (((renderDragImpl net opt s a).2.1.points).getD
        []).zip a.targets,
      pointDistSq pr.1 pr.2 ≤ stopThresh net.img_resolution ^ 2) :
    (renderDragImpl net opt s a).1.w = s.w ∧
    (renderDragImpl net opt s a).1.optimLr = s.optimLr ∧
    (renderDragImpl net opt s a).1.optimState = s.optimState ∧
    (renderDragImpl net opt s a).2.2 = [] := by
  rw [renderDragImpl_points net opt s a hdrag, Option.getD_some] at hconv
  have hstop : computeStop net.img_resolution
      ((dragTrackedPoints net s a).zip a.targets) true = true :=
    (computeStop_true_iff _ _).mpr hconv
  rw [renderDragImpl, hdrag]
  rw [if_pos rfl]
  dsimp only
  rw [hstop]
  rw [if_pos rfl]
  refine ⟨?_, ?_, ?_, rfl⟩
  · show (populateRefs _ _ _).w = s.w
    rw [populateRefs_w, resetStage_w]
  · show (populateRefs _ _ _).optimLr = s.optimLr
    rw [populateRefs_optimLr, resetStage_optimLr]
  · show (populateRefs _ _ _).optimState = s.optimState
    rw [populateRefs_optimState, resetStage_optimState]

/-- C7 witness: the theorem applied to the concrete call whose point
already coincides with its target. -/
theorem converged_step_no_optimizer_update_witness :
    cArgsConv.is_drag = true ∧
    (∀ pr ∈ (((renderDragImpl cNet cOpt cSes cArgsConv).2.1.points).getD
        []).zip cArgsConv.targets,
      pointDistSq pr.1 pr.2 ≤ stopThresh cNet.img_resolution ^ 2) ∧
    ((renderDragImpl cNet cOpt cSes cArgsConv).1.w = cSes.w ∧
     (renderDragImpl cNet cOpt cSes cArgsConv).1.optimLr = cSes.optimLr ∧
     (renderDragImpl cNet cOpt cSes cArgsConv).1.optimState
       = cSes.optimState ∧
     (renderDragImpl cNet cOpt cSes cArgsConv).2.2 = []) :=
  ⟨rfl, by decide,
   converged_step_no_optimizer_update cNet cOpt cSes cArgsConv rfl
     (by decide)⟩

/-- C5: the session is reinitialized — and the result's `init_net` flag
reports it — exactly when no network is loaded yet, or the recorded
model identifier, seed or parameterization flag differs from the
incoming one, or the caller forces a latent reset. -/
theorem init_net_decision_iff (loader : String → Except ErrKind Network)
    (opt : ℚ → Latent → ℕ → Latent × ℕ) (s : Session) (a : RenderArgs) :
    (render loader opt s a).2.1.init_net = some (decideInitNet s a) ∧
    (decideInitNet s a = true ↔
      s.G = none ∨
      (∃ p, s.pkl = some p ∧ p ≠ a.pkl) ∨
      (∃ z, s.w0_seed = some z ∧ z ≠ a.w0_seed) ∨
      (∃ b, s.w_plus = some b ∧ b ≠ a.w_plus) ∨
      a.reset_w = true) := by
  constructor
  · rw [render]
    dsimp only
    by_cases hI : decideInitNet s a = true
    · rw [if_pos hI, hI]
      rcases hin : initNetwork loader s a with ⟨s1, res1⟩
      cases res1 with
      | error e => rfl
      | ok terr =>
          dsimp only
          cases hG : s1.G with
          | none => rfl
          | some net => rfl
    · rw [if_neg hI]
      have hF : decideInitNet s a = false := by
        cases hDF : decideInitNet s a
        · rfl
        · exact absurd hDF hI
      rw [hF]
      cases hG : s.G with
      | none => rfl
      | some net => rfl
  · rw [decideInitNet]
    cases hG : s.G <;> cases hp : s.pkl <;> cases hz : s.w0_seed <;>
      cases hb : s.w_plus <;>
      simp [hG, hp, hz, hb, decide_eq_true_eq] <;> tauto

/-- C6 counterexample: when loading the requested model fails, the
failing identifier has nevertheless been recorded in the session
(`self.pkl = pkl` precedes the load in `init_network`), so the prior
session state is not left untouched. -/
theorem failed_init_overwrites_pkl :
    (render cLoader cOpt cSes cArgsBad).1.pkl = some pklBad ∧
    cSes.pkl = some pklA ∧
    pklBad ≠ pklA ∧
    (render cLoader cOpt cSes cArgsBad).2.1.error
      = some ErrKind.modelLoad := by
  refine ⟨by decide, by decide, by decide, by decide⟩

/-- C6 (amended): if the model identifier cannot be resolved, the render
call returns a result carrying the load error and no image (and no
points/stop fields), performs no optimizer actions, and leaves the prior
session state untouched except that the recorded model identifier is
overwritten with the requested (failing) one. -/
theorem failed_init_leaves_state_except_pkl
    (loader : String → Except ErrKind Network)
    (opt : ℚ → Latent → ℕ → Latent × ℕ) (s : Session) (a : RenderArgs)
    (e : ErrKind)
    (hload : loader a.pkl = Except.error e)
    (hinit : decideInitNet s a = true) :
    render loader opt s a =
      ({ s with pkl := some a.pkl },
       { emptyResult with init_net := some true, error := some e },
       []) := by
  have hin : initNetwork loader s a
      = ({ s with pkl := some a.pkl }, Except.error e) := by
    rw [initNetwork]
    dsimp only
    rw [hload]
  rw [render]
  dsimp only
  rw [if_pos hinit, hin]

/-- C6 witness: the amended theorem applied to the concrete failing
loader. -/
theorem failed_init_leaves_state_except_pkl_witness :
    cLoader cArgsBad.pkl = Except.error ErrKind.modelLoad ∧
    decideInitNet cSes cArgsBad = true ∧
    render cLoader cOpt cSes cArgsBad =
      ({ cSes with pkl := some cArgsBad.pkl },
       { emptyResult with
           init_net := some true, error := some ErrKind.modelLoad },
       []) :=
  ⟨rfl, by decide,
   failed_init_leaves_state_except_pkl cLoader cOpt cSes cArgsBad
     ErrKind.modelLoad rfl (by decide)⟩

/-- C8: the tracking loop preserves the length of the point list, its
`j`-th output is the relocation of the `j`-th input against
`feat_refs[j]`, and every relocated point lies within image bounds
(row in `[0, h)`, column in `[0, w)`). -/
theorem trackAll_length_order_bounds (fm : Pt → Vec) (h w r : ℤ)
    (pts : List Pt) (refs : List Vec)
    (hr : 0 ≤ r) (hlen : pts.length = refs.length)
    (hin : ∀ p ∈ pts, 0 ≤ p.1 ∧ p.1 < h ∧ 0 ≤ p.2 ∧ p.2 < w) :
    (trackAll fm h w r pts refs).length = pts.length ∧
    (∀ j, j < pts.length →
      (trackAll fm h w r pts refs).getD j (0, 0) =
        trackPoint fm (refs.getD j []) h w r (pts.getD j (0, 0))) ∧
    ∀ q ∈ trackAll fm h w r pts refs,
      0 ≤ q.1 ∧ q.1 < h ∧ 0 ≤ q.2 ∧ q.2 < w := by
  refine ⟨trackAll_length fm h w r pts refs hlen,
    fun j hj => trackAll_getD fm h w r pts refs hlen j hj, ?_⟩
  intro q hq
  obtain ⟨j, hj, hgj⟩ := (mem_iff_getD _ q).mp hq
  rw [trackAll_length fm h w r pts refs hlen] at hj
  rw [trackAll_getD fm h w r pts refs hlen j hj] at hgj
  have hpmem : pts.getD j (0, 0) ∈ pts :=
    (mem_iff_getD pts _).mpr ⟨j, hj, rfl⟩
  obtain ⟨b1, b2, b3, b4⟩ := hin _ hpmem
  have hpw : inWindow h w r (pts.getD j (0, 0)) (pts.getD j (0, 0)) := by
    refine ⟨by simpa using hr, b1, b2, by simpa using hr, b3, b4⟩
  have hqw := trackPoint_inWindow fm (refs.getD j []) h w r _ hr hpw
  rw [hgj] at hqw
  exact ⟨hqw.2.1, hqw.2.2.1, hqw.2.2.2.2.1, hqw.2.2.2.2.2⟩

/-- C8 witness: the theorem applied to two concrete points in a 4×4
image with radius 1. -/
theorem trackAll_length_order_bounds_witness :
    (0 : ℤ) ≤ 1 ∧
    ([((1 : ℤ), (1 : ℤ)), (0, 3)] : List Pt).length
      = ([[1, 1], [0, 3]] : List Vec).length ∧
    (∀ p ∈ ([((1 : ℤ), (1 : ℤ)), (0, 3)] : List Pt),
      0 ≤ p.1 ∧ p.1 < 4 ∧ 0 ≤ p.2 ∧ p.2 < 4) ∧
    ((trackAll wFm 4 4 1 [(1, 1), (0, 3)] [[1, 1], [0, 3]]).length
        = ([((1 : ℤ), (1 : ℤ)), (0, 3)] : List Pt).length ∧
     (∀ j, j < ([((1 : ℤ), (1 : ℤ)), (0, 3)] : List Pt).length →
       (trackAll wFm 4 4 1 [(1, 1), (0, 3)] [[1, 1], [0, 3]]).getD j (0, 0) =
         trackPoint wFm (([[1, 1], [0, 3]] : List Vec).getD j []) 4 4 1
           (([((1 : ℤ), (1 : ℤ)), (0, 3)] : List Pt).getD j (0, 0))) ∧
     ∀ q ∈ trackAll wFm 4 4 1 [(1, 1), (0, 3)] [[1, 1], [0, 3]],
       0 ≤ q.1 ∧ q.1 < 4 ∧ 0 ≤ q.2 ∧ q.2 < 4) :=
  ⟨by decide, rfl, by decide,
   trackAll_length_order_bounds wFm 4 4 1 [(1, 1), (0, 3)]
     [[1, 1], [0, 3]] (by decide) rfl (by decide)⟩

/-- C9: if the network has an input transform and the supplied
`input_transform` matrix is singular, initialization records a
numerical-kind error in the result, the transform falls back to the 3×3
identity, and the call still produces an image. -/
theorem singular_transform_identity_fallback
    (loader : String → Except ErrKind Network)
    (opt : ℚ → Latent → ℕ → Latent × ℕ) (s : Session) (a : RenderArgs)
    (net : Network) (m : Mat3)
    (hload : loader a.pkl = Except.ok net)
    (hinit : decideInitNet s a = true)
    (htr : net.has_input_transform = true)
    (hm : a.input_transform = some m)
    (hdet : det3 m = 0) :
    (render loader opt s a).2.1.error = some ErrKind.numerical ∧
    ((render loader opt s a).2.1.image).isSome = true ∧
    (render loader opt s a).1.transform = eye3 := by
  have hset : setInputTransform a.input_transform
      = (eye3, some ErrKind.numerical) := by
    rw [hm, setInputTransform, if_pos hdet]
  have hin : initNetwork loader s a =
      ({ s with
          pkl := some a.pkl,
          G := some net,
          transform := eye3,
          w0_seed := some a.w0_seed,
          w0 := net.mapping a.w0_seed,
          w_plus := some a.w_plus,
          w := if a.w_plus then Latent.perLayer (net.mapping a.w0_seed)
               else Latent.single (net.mapping a.w0_seed).headI,
          optimLr := a.lr,
          optimState := 0,
          feat_refs := none,
          points0_pt := none },
       Except.ok (some ErrKind.numerical)) := by
    rw [initNetwork]
    dsimp only
    rw [hload]
    dsimp only
    rw [hset, htr]
    rfl
  rw [render]
  dsimp only
  rw [if_pos hinit, hin]
  dsimp only
  refine ⟨rfl, ?_, ?_⟩
  · rw [renderDragImpl_image]
    rfl
  · rw [renderDragImpl_transform]

/-- A variant of the small network exposing an input transform. -/
def cNetT : Network := { cNet with has_input_transform := true }

/-- A loader that always resolves to `cNetT`. -/
def cLoaderT : String → Except ErrKind Network :=
  fun _ => Except.ok cNetT

/-- An uninitialized session (no network loaded yet). -/
def cSesNoG : Session := { cSes with G := none }

/-- The all-zero (hence singular) 3×3 matrix. -/
def zero3 : Mat3 := ⟨0, 0, 0, 0, 0, 0, 0, 0, 0⟩

/-- A render request supplying the singular input transform. -/
def cArgsSing : RenderArgs :=
  { pkl := pklA, w0_seed := 0, w_plus := true, reset_w := false,
    input_transform := some zero3, lr := 1 / 1000, drag := cDragNone }

/-- C9 witness: the theorem applied to the concrete singular matrix. -/
theorem singular_transform_identity_fallback_witness :
    cLoaderT cArgsSing.pkl = Except.ok cNetT ∧
    decideInitNet cSesNoG cArgsSing = true ∧
    cNetT.has_input_transform = true ∧
    cArgsSing.input_transform = some zero3 ∧
    det3 zero3 = 0 ∧
    ((render cLoaderT cOpt cSesNoG cArgsSing).2.1.error
        = some ErrKind.numerical ∧
     ((render cLoaderT cOpt cSesNoG cArgsSing).2.1.image).isSome = true ∧
     (render cLoaderT cOpt cSesNoG cArgsSing).1.transform = eye3) :=
  ⟨rfl, by decide, rfl, rfl, by decide,
   singular_transform_identity_fallback cLoaderT cOpt cSesNoG cArgsSing
     cNetT zero3 rfl (by decide) rfl rfl (by decide)⟩

/-- C10: the latent handed to the synthesis network consists of the
first 6 layers of the optimized latent (broadcast to per-layer form in
single-vector mode) followed by the layers of index 6 and above of
`w0`; hence every layer of index 6 and above of the effective synthesis
latent equals the corresponding layer of the base latent code. -/
theorem effective_latent_upper_layers_from_base (net : Network)
    (opt : ℚ → Latent → ℕ → Latent × ℕ) (s : Session) (a : DragArgs)
    (h6 : 6 ≤ (broadcast6 s.w).length) :
    (renderDragImpl net opt s a).2.1.image
      = some (net.synthImage (effectiveLatent s.w s.w0)) ∧
    (∀ i, 6 ≤ i → (effectiveLatent s.w s.w0)[i]? = s.w0[i]?) ∧
    (∀ i, i < 6 → (effectiveLatent s.w s.w0)[i]? = (broadcast6 s.w)[i]?) := by
  have hlen : ((broadcast6 s.w).take 6).length = 6 := by
    rw [List.length_take]
    omega
  refine ⟨renderDragImpl_image net opt s a, ?_, ?_⟩
  · intro i hi
    rw [effectiveLatent]
    rw [List.getElem?_append_right (by omega : ((broadcast6 s.w).take 6).length ≤ i)]
    rw [hlen, List.getElem?_drop]
    congr 1
    omega
  · intro i hi
    rw [effectiveLatent]
    rw [List.getElem?_append]
    rw [if_pos (by omega : i < ((broadcast6 s.w).take 6).length)]
    rw [List.getElem?_take, if_pos hi]

/-- C10 witness: the theorem applied to a concrete 8-layer latent. -/
theorem effective_latent_upper_layers_from_base_witness :
    6 ≤ (broadcast6 cSes.w).length ∧
    ((renderDragImpl cNet cOpt cSes cDragNone).2.1.image
        = some (cNet.synthImage (effectiveLatent cSes.w cSes.w0)) ∧
     (∀ i, 6 ≤ i →
       (effectiveLatent cSes.w cSes.w0)[i]? = cSes.w0[i]?) ∧
     (∀ i, i < 6 →
       (effectiveLatent cSes.w cSes.w0)[i]? = (broadcast6 cSes.w)[i]?)) :=
  ⟨by decide,
   effective_latent_upper_layers_from_base cNet cOpt cSes cDragNone
     (by decide)⟩

end ConcreteEvaluation

end DragGAN
